import Mathlib

/-!
Verification development for the FASTA utility `parse_fa.py`.

The Python module is shallowly embedded as follows.

* Text is `List Char` (`Str`); file contents are one `Str` holding the raw
  characters, split into lines at newline characters exactly as Python's
  line iteration does (the final piece after a trailing newline is an empty
  extra line, which is inert for the parser since it strips to nothing).
* Python exceptions are the `Err` inductive; fallible operations return
  `Except Err _`.  `Err.valueError` stands for Python `ValueError` (the
  spec's RangeError in `slice_sequence`), `Err.fileNotFound` for
  `FileNotFoundError`, `Err.decodeError` for `UnicodeDecodeError`,
  `Err.indexError` for `IndexError`, and `Err.ioError` for `IOError`/`OSError`.
* File I/O: a file to be read is `Option Str` (`none` = the bytes do not
  decode as UTF-8).  A file being written is modelled by the list of chunks
  passed to successive `file.write` calls; an I/O failure is modelled by a
  `budget : Option Nat` giving the number of `write` calls that succeed
  before `IOError` is raised (`none` = the device never fails).  The final
  on-disk state of the destination is `Option (List Str)`: `none` when no
  file remains (never created, or removed), `some chunks` otherwise.
* `print` calls are collected as an abstract `Notice` trace.
-/

abbrev Str := List Char

def strOf (s : String) : Str := s.toList

/-- The whitespace characters recognised by Python's `str.strip()` /
`str.split()` that can occur in ASCII text. -/
def pyIsSpace (c : Char) : Bool :=
  c = ' ' || c = '\t' || c = '\n' || c = '\r' || c = '\x0b' || c = '\x0c'

/-- Python `str.strip()`: remove leading and trailing whitespace. -/
def strip (s : Str) : Str :=
  ((s.dropWhile pyIsSpace).reverse.dropWhile pyIsSpace).reverse

/-- Accumulator for `splitWS`; `acc` holds the current word reversed. -/
def splitWSAux : Str → Str → List Str
  | [], acc => if acc.isEmpty then [] else [acc.reverse]
  | c :: rest, acc =>
    if pyIsSpace c then
      if acc.isEmpty then splitWSAux rest []
      else acc.reverse :: splitWSAux rest []
    else splitWSAux rest (c :: acc)

/-- Python `str.split()` with no argument: split on runs of whitespace,
dropping empty pieces. -/
def splitWS (s : Str) : List Str := splitWSAux s []

/-- Split a file's raw text at newline characters; `"x\ny\n"` becomes
`["x", "y", ""]` (the trailing empty piece is inert after stripping). -/
def splitOnNl : Str → List Str
  | [] => [[]]
  | c :: rest =>
    if c = '\n' then [] :: splitOnNl rest
    else
      match splitOnNl rest with
      | [] => [[c]]
      | l :: ls => (c :: l) :: ls

/-- Python `delimiter.join(pieces)`. -/
def joinWith (d : Str) : List Str → Str
  | [] => []
  | [x] => x
  | x :: y :: xs => x ++ d ++ joinWith d (y :: xs)

/-- The Python exceptions that the module can raise. -/
inductive Err
  | fileNotFound
  | valueError
  | decodeError
  | indexError
  | ioError
deriving DecidableEq, Repr

deriving instance DecidableEq for Except

/-! ## Parser: `parse_fasta_file` -/

/-- Does a (stripped) line start with the `>` marker?  (Python
`line.startswith('>')` after `line = line.strip()`.) -/
def startsGt : Str → Bool
  | '>' :: _ => true
  | _ => false

/-- Python `line[1:]` for a nonempty line (and `[]` on the empty line). -/
def tlStr : Str → Str
  | [] => []
  | _ :: r => r

/-- Python truthiness of `current_id` (`None` and `''` are falsy). -/
def idTruthy : Option Str → Bool
  | none => false
  | some s => !s.isEmpty

/-- The loop state of `parse_fasta_file`: the accumulated `ids` and
`sequences` lists plus `current_id` / `current_sequence`. -/
structure ParseState where
  ids : List Str
  seqs : List Str
  currentId : Option Str
  currentSeq : Str
deriving DecidableEq, Repr

/-- One iteration of the `for line in file` loop of `parse_fasta_file`. -/
def stepLine (st : ParseState) (rawLine : Str) : ParseState :=
  let line := strip rawLine
  if startsGt line then
    if idTruthy st.currentId && !st.currentSeq.isEmpty then
      ⟨st.ids ++ [st.currentId.getD []], st.seqs ++ [st.currentSeq],
        some (tlStr line), []⟩
    else ⟨st.ids, st.seqs, some (tlStr line), []⟩
  else ⟨st.ids, st.seqs, st.currentId, st.currentSeq ++ line⟩

/-- The epilogue of `parse_fasta_file`: flush the pending record if both
`current_id` and `current_sequence` are truthy. -/
def finishParse (st : ParseState) : List Str × List Str :=
  if idTruthy st.currentId && !st.currentSeq.isEmpty then
    (st.ids ++ [st.currentId.getD []], st.seqs ++ [st.currentSeq])
  else (st.ids, st.seqs)

/-- `parse_fasta_file` applied to already-decoded file text. -/
def parse_fasta_content (content : Str) : List Str × List Str :=
  finishParse ((splitOnNl content).foldl stepLine ⟨[], [], none, []⟩)

/-- `parse_fasta_file`: reading a file whose bytes do not decode raises
`UnicodeDecodeError`; otherwise the text is parsed. -/
def parse_fasta_file : Option Str → Except Err (List Str × List Str)
  | none => .error .decodeError
  | some c => .ok (parse_fasta_content c)

/-! ## Slicer: `slice_sequence` -/

/-- Resolution of one slice bound in Python `s[a:b]`: a negative index is
taken from the end of the string (and floored at 0), a non-negative index is
capped at the length. -/
def pySliceResolve (n : Nat) (i : Int) : Nat :=
  if i < 0 then ((n : Int) + i).toNat else min n i.toNat

/-- Python string slicing `s[a:b]` (both bounds present). -/
def pySlice (s : Str) (a b : Int) : Str :=
  (s.take (pySliceResolve s.length b)).drop (pySliceResolve s.length a)

/-- `slice_sequence`: with both bounds present it raises `ValueError` when
`start > end` and otherwise returns `sequence[start:end]`; with any bound
absent it returns the sequence unchanged. -/
def slice_sequence (sequence : Str) (start stop : Option Int) : Except Err Str :=
  match start, stop with
  | some a, some b =>
    if a > b then .error .valueError else .ok (pySlice sequence a b)
  | _, _ => .ok sequence

/-! ## Validator: `validate_input` -/

/-- `validate_input`: `FileNotFoundError` when the input path does not
exist.  (The `sequence_id` type check cannot fail in the typed embedding.) -/
def validate_input (fastaExists : Bool) : Except Err Unit :=
  if fastaExists then .ok () else .error .fileNotFound

/-! ## Writer plumbing: budgeted `file.write` calls -/

def budgetZero : Option Nat → Bool
  | some 0 => true
  | _ => false

def decBudget : Option Nat → Option Nat
  | none => none
  | some n => some (n - 1)

/-- Issue the given chunks to `file.write` in order; each call consumes one
unit of `budget` and the call after the budget is exhausted raises
`IOError`.  Returns the outcome, the chunks actually written, and the
remaining budget. -/
def writeChunks : Option Nat → List Str → Except Err Unit × List Str × Option Nat
  | b, [] => (.ok (), [], b)
  | b, c :: rest =>
    if budgetZero b then (.error .ioError, [], b)
    else
      let (r, w, b') := writeChunks (decBudget b) rest
      (r, c :: w, b')

/-! ## Writer: `save_sequences_to_file` -/

/-- Python truthiness of the `columns` argument (`None` and `[]` falsy). -/
def colsTruthy : Option (List Int) → Bool
  | none => false
  | some l => !l.isEmpty

/-- Resolution of a Python list index: negative indices count from the
end. -/
def pyResolve (len : Nat) (i : Int) : Int :=
  if i < 0 then (len : Int) + i else i

/-- Python list indexing `l[i]` (negative indices from the end;
out-of-range raises `IndexError`). -/
def pyGetElem (l : List Str) (i : Int) : Except Err Str :=
  if h : 0 ≤ pyResolve l.length i ∧ (pyResolve l.length i).toNat < l.length
  then .ok (l.get ⟨(pyResolve l.length i).toNat, h.2⟩)
  else .error .indexError

/-- The list comprehension `[id.split()[i] for i in columns]` of
`save_sequences_to_file`: the first out-of-range index raises. -/
def projectFields (fields : List Str) : List Int → Except Err (List Str)
  | [] => .ok []
  | i :: rest =>
    match pyGetElem fields i with
    | .error e => .error e
    | .ok f =>
      match projectFields fields rest with
      | .error e => .error e
      | .ok fs => .ok (f :: fs)

/-- The chunks passed to `file.write` for one `(id, sequence)` pair by the
body of `save_sequences_to_file`, or the exception its computation raises
before writing. -/
def recordChunks (delim : Str) (cols : Option (List Int)) (ws : Bool)
    (id sq : Str) : Except Err (List Str) :=
  if ws then
    if colsTruthy cols then
      match projectFields (splitWS id) (cols.getD []) with
      | .error e => .error e
      | .ok fs => .ok [joinWith delim fs ++ ['\n'], sq ++ ['\n']]
    else .ok [id ++ ['\n'] ++ sq ++ ['\n']]
  else .ok [id ++ ['\n']]

/-- The `for id, sequence in zip(ids, sequences)` loop of
`save_sequences_to_file`, under a write budget.  Returns the outcome and
the chunks actually written (which remain in the file: the function has no
cleanup handler). -/
def saveSeqLoop (delim : Str) (cols : Option (List Int)) (ws : Bool) :
    Option Nat → List (Str × Str) → Except Err Unit × List Str
  | _, [] => (.ok (), [])
  | b, (id, sq) :: rest =>
    match recordChunks delim cols ws id sq with
    | .error e => (.error e, [])
    | .ok chunks =>
      let (r, w, b') := writeChunks b chunks
      match r with
      | .error e => (.error e, w)
      | .ok () =>
        let (r2, w2) := saveSeqLoop delim cols ws b' rest
        (r2, w ++ w2)

/-- `save_sequences_to_file`: with no destination nothing happens; with a
destination the file is truncated and written pair by pair.  Any exception
propagates to the caller and the partially written chunks remain on disk. -/
def save_sequences_to_file (ids seqs : List Str) (dest : Option Str)
    (delim : Str) (cols : Option (List Int)) (ws : Bool) (budget : Option Nat) :
    Except Err Unit × Option (List Str) :=
  match dest with
  | none => (.ok (), none)
  | some _ =>
    let (r, w) := saveSeqLoop delim cols ws budget (ids.zip seqs)
    (r, some w)

/-! ## Writer: `save_ids_to_file` -/

/-- The id line built by `save_ids_to_file`: the whitespace-split fields of
the id, projected through `columns` when given, with an out-of-range index
producing an empty field, joined by the delimiter. -/
def idsLine (delim : Str) (cols : Option (List Int)) (id : Str) : Str :=
  let fields := splitWS id
  match cols with
  | none => joinWith delim fields
  | some cs =>
    joinWith delim
      (cs.map fun i =>
        if 0 ≤ i ∧ i.toNat < fields.length then fields.getD i.toNat [] else [])

/-- The `for index, id_str in enumerate(ids)` loop of `save_ids_to_file`,
under a write budget. -/
def saveIdsLoop (delim : Str) (cols : Option (List Int))
    (seqs : Option (List Str)) :
    Option Nat → Nat → List Str → Except Err Unit × List Str
  | _, _, [] => (.ok (), [])
  | b, index, id :: rest =>
    let (r, w, b') := writeChunks b [idsLine delim cols id ++ ['\n']]
    match r with
    | .error e => (.error e, w)
    | .ok () =>
      match seqs with
      | some sl =>
        if !sl.isEmpty then
          match (if h : index < sl.length then .ok (sl.get ⟨index, h⟩)
                 else (.error .indexError : Except Err Str)) with
          | .error e => (.error e, w)
          | .ok sq =>
            if !sq.isEmpty then
              let (r2, w2, b'') := writeChunks b' [sq ++ ['\n']]
              match r2 with
              | .error e => (.error e, w ++ w2)
              | .ok () =>
                let (r3, w3) := saveIdsLoop delim cols seqs b'' (index + 1) rest
                (r3, w ++ w2 ++ w3)
            else
              let (r3, w3) := saveIdsLoop delim cols seqs b' (index + 1) rest
              (r3, w ++ w3)
        else
          let (r3, w3) := saveIdsLoop delim cols seqs b' (index + 1) rest
          (r3, w ++ w3)
      | none =>
        let (r3, w3) := saveIdsLoop delim cols seqs b' (index + 1) rest
        (r3, w ++ w3)

/-- `save_ids_to_file`: validates its arguments (raising `ValueError`),
deletes any pre-existing destination, writes the id (and optional sequence)
lines, and on an `IOError`/`OSError` prints a message, removes the file and
returns normally.  Other exceptions (e.g. `IndexError` from a short
`sequences` list) propagate and leave the partial file behind. -/
def save_ids_to_file (ids : List Str) (filename : Str) (delim : Str)
    (cols : Option (List Int)) (seqs : Option (List Str)) (budget : Option Nat) :
    Except Err Unit × Option (List Str) :=
  if ids.isEmpty then (.error .valueError, none)
  else if filename.isEmpty then (.error .valueError, none)
  else if (match cols with
           | none => false
           | some cs => cs.any fun i => decide (i < 0)) then
    (.error .valueError, none)
  else
    let (r, w) := saveIdsLoop delim cols seqs budget 0 ids
    match r with
    | .ok () => (.ok (), some w)
    | .error .ioError => (.ok (), none)
    | .error e => (.error e, some w)

/-! ## Orchestrator: `get_sequence_by_id` -/

/-- The messages `get_sequence_by_id` prints. -/
inductive Notice
  | foundId (id : Str)
  | seqLength (n : Nat)
  | notFound (id : Str)
  | errorNotice (e : Err)
deriving DecidableEq, Repr

/-- The observable outcome of one `get_sequence_by_id` call: whether an
exception escaped to the caller, the printed messages, and the final state
of the destination file. -/
structure RunResult where
  result : Except Err Unit
  notices : List Notice
  written : Option (List Str)
deriving DecidableEq, Repr

/-- The `for id, sequence in zip(...)` lookup loop of `get_sequence_by_id`:
`target_sequence` stays `''` when no id matches; the first match is sliced
(possibly raising) and the loop breaks. -/
def findTarget : List (Str × Str) → Str → Option Int → Option Int → Except Err Str
  | [], _, _, _ => .ok []
  | (id, sq) :: rest, sid, start, stop =>
    if id == sid then slice_sequence sq start stop
    else findTarget rest sid start stop

/-- The `else` arm of `get_sequence_by_id` (no truthy `sequence_id`): write
all records; an exception from the Writer is caught and printed. -/
def allRecordsBranch (all_ids all_seqs : List Str) (dest : Option Str)
    (delim : Str) (cols : Option (List Int)) (ws : Bool) (budget : Option Nat) :
    RunResult :=
  match save_sequences_to_file all_ids all_seqs dest delim cols ws budget with
  | (.ok _, w) => ⟨.ok (), [], w⟩
  | (.error e, w) => ⟨.ok (), [.errorNotice e], w⟩

/-- The truthy-`sequence_id` arm of `get_sequence_by_id`: look up the first
matching record, slice it, and if the sliced sequence is truthy print the
notices and write the single pair; exceptions inside this phase are caught
and printed. -/
def singleBranch (all_ids all_seqs : List Str) (sid : Str)
    (start stop : Option Int) (dest : Option Str) (delim : Str)
    (cols : Option (List Int)) (ws : Bool) (budget : Option Nat) : RunResult :=
  match findTarget (all_ids.zip all_seqs) sid start stop with
  | .error e => ⟨.ok (), [.errorNotice e], none⟩
  | .ok t =>
    if t.isEmpty then ⟨.ok (), [.notFound sid], none⟩
    else
      let ns := Notice.foundId sid ::
        (if ws then [Notice.seqLength t.length] else [])
      match save_sequences_to_file [sid] [t] dest delim cols ws budget with
      | (.ok _, w) => ⟨.ok (), ns, w⟩
      | (.error e, w) => ⟨.ok (), ns ++ [.errorNotice e], w⟩

/-- `get_sequence_by_id`: validate, normalise an empty `columns` list to
`None`, parse (exceptions up to this point propagate to the caller), then
run the selection/slicing/writing phase inside `try`/`except`. -/
def get_sequence_by_id (fastaExists : Bool) (fastaText : Option Str)
    (sequence_id : Option Str) (start stop : Option Int)
    (id_output_file : Option Str) (delim : Str) (columns : Option (List Int))
    (write_sequence : Bool) (budget : Option Nat) : RunResult :=
  match validate_input fastaExists with
  | .error e => ⟨.error e, [], none⟩
  | .ok () =>
    let cols := if columns = some [] then none else columns
    match parse_fasta_file fastaText with
    | .error e => ⟨.error e, [], none⟩
    | .ok (all_ids, all_seqs) =>
      match sequence_id with
      | none =>
        allRecordsBranch all_ids all_seqs id_output_file delim cols
          write_sequence budget
      | some sid =>
        if sid.isEmpty then
          allRecordsBranch all_ids all_seqs id_output_file delim cols
            write_sequence budget
        else
          singleBranch all_ids all_seqs sid start stop id_output_file delim
            cols write_sequence budget

/-! ## Sanity examples for the embedding -/

example : parse_fasta_content (strOf ">a\nAC\nGT\n>b\nTT\n") =
    ([strOf "a", strOf "b"], [strOf "ACGT", strOf "TT"]) := by decide

example : parse_fasta_content (strOf ">a\n>b\nAA\n") =
    ([strOf "b"], [strOf "AA"]) := by decide

example : slice_sequence (strOf "ABCDEF") (some 1) (some 3) = .ok (strOf "BC") := by
  decide

example : slice_sequence (strOf "ABCDEF") (some (-3)) (some (-1)) =
    .ok (strOf "DE") := by decide

example : splitWS (strOf "seq1 len=10 type=dna") =
    [strOf "seq1", strOf "len=10", strOf "type=dna"] := by decide

/-! ## Declarative form of the parser, for C1/C8 -/

/-- Close a pending `(identifier, sequence)` pair: it becomes a record
exactly when both components are nonempty. -/
def spec_close : Option (Str × Str) → List (Str × Str)
  | none => []
  | some (i, s) => if i.isEmpty || s.isEmpty then [] else [(i, s)]

/-- Direct-recursion form of the parser: for each header line the
identifier is the remainder of the stripped line after the marker, the
sequence is the concatenation of the stripped non-header lines up to the
next header, and pairs with an empty component are dropped. -/
def spec_go : List Str → Option (Str × Str) → List (Str × Str)
  | [], p => spec_close p
  | l :: rest, p =>
    let sl := strip l
    if startsGt sl then spec_close p ++ spec_go rest (some (tlStr sl, []))
    else
      spec_go rest
        (match p with
         | some (i, s) => some (i, s ++ sl)
         | none => none)

def spec_parse (c : Str) : List (Str × Str) := spec_go (splitOnNl c) none

/-- Parser following the claim's words instead of the source: the
identifier is the text after the marker with surrounding whitespace
stripped, and every header yields a record. -/
def claim_go : List Str → Option (Str × Str) → List (Str × Str)
  | [], p => p.toList
  | l :: rest, p =>
    let sl := strip l
    if startsGt sl then p.toList ++ claim_go rest (some (strip (tlStr sl), []))
    else
      claim_go rest
        (match p with
         | some (i, s) => some (i, s ++ sl)
         | none => none)

def claim_parse (c : Str) : List (Str × Str) := claim_go (splitOnNl c) none

/-- Abstraction of the parser's `(current_id, current_sequence)` state to
the pending pair of the declarative form. -/
def absState : Option Str → Str → Option (Str × Str)
  | none, _ => none
  | some i, s => some (i, s)

theorem spec_close_abs (cid : Option Str) (cseq : Str) :
    spec_close (absState cid cseq) =
      if idTruthy cid && !cseq.isEmpty then [(cid.getD [], cseq)] else [] := by
  cases cid with
  | none => simp [absState, spec_close, idTruthy]
  | some i =>
    cases h1 : i.isEmpty <;> cases h2 : cseq.isEmpty <;>
      simp [absState, spec_close, idTruthy, h1, h2]

theorem absState_some (i s : Str) : absState (some i) s = some (i, s) := rfl

theorem absState_append (cid : Option Str) (cseq sl : Str) :
    (match absState cid cseq with
     | some (i, s) => some (i, s ++ sl)
     | none => none) = absState cid (cseq ++ sl) := by
  cases cid <;> rfl

theorem foldl_step_spec (lines : List Str) :
    ∀ (ids seqs : List Str) (cid : Option Str) (cseq : Str),
      finishParse (lines.foldl stepLine ⟨ids, seqs, cid, cseq⟩) =
        (ids ++ (spec_go lines (absState cid cseq)).map Prod.fst,
         seqs ++ (spec_go lines (absState cid cseq)).map Prod.snd) := by
  induction lines with
  | nil =>
    intro ids seqs cid cseq
    simp only [List.foldl_nil, spec_go, finishParse, spec_close_abs]
    by_cases h : (idTruthy cid && !cseq.isEmpty) = true
    · simp [h]
    · simp [h]
  | cons l rest ih =>
    intro ids seqs cid cseq
    simp only [List.foldl_cons, spec_go]
    by_cases hg : startsGt (strip l) = true
    · by_cases hc : (idTruthy cid && !cseq.isEmpty) = true
      · have hstep : stepLine ⟨ids, seqs, cid, cseq⟩ l =
            ⟨ids ++ [cid.getD []], seqs ++ [cseq], some (tlStr (strip l)), []⟩ := by
          simp [stepLine, hg, hc]
        rw [hstep, ih, spec_close_abs]
        simp [absState_some, hc, hg, List.append_assoc]
      · have hstep : stepLine ⟨ids, seqs, cid, cseq⟩ l =
            ⟨ids, seqs, some (tlStr (strip l)), []⟩ := by
          simp [stepLine, hg, hc]
        rw [hstep, ih, spec_close_abs]
        simp [absState_some, hc, hg]
    · have hstep : stepLine ⟨ids, seqs, cid, cseq⟩ l =
          ⟨ids, seqs, cid, cseq ++ strip l⟩ := by
        simp [stepLine, hg]
      rw [hstep, ih]
      simp [hg, absState_append]

theorem spec_go_records_nonempty (lines : List Str) :
    ∀ p r, r ∈ spec_go lines p → (!r.1.isEmpty && !r.2.isEmpty) = true := by
  induction lines with
  | nil =>
    intro p r hr
    match p with
    | none => simp [spec_go, spec_close] at hr
    | some (i, s) =>
      simp only [spec_go, spec_close] at hr
      by_cases h1 : i.isEmpty <;> by_cases h2 : s.isEmpty <;>
        simp [h1, h2] at hr <;> simp [hr, h1, h2]
  | cons l rest ih =>
    intro p r hr
    by_cases hg : startsGt (strip l) = true
    · simp only [spec_go, hg, if_true, List.mem_append] at hr
      rcases hr with hr | hr
      · match p with
        | none => simp [spec_close] at hr
        | some (i, s) =>
          simp only [spec_close] at hr
          by_cases h1 : i.isEmpty <;> by_cases h2 : s.isEmpty <;>
            simp [h1, h2] at hr <;> simp [hr, h1, h2]
      · exact ih _ r hr
    · simp only [spec_go, hg] at hr
      exact ih _ r hr

theorem parse_eq_spec_parse (c : Str) :
    parse_fasta_content c =
      ((spec_parse c).map Prod.fst, (spec_parse c).map Prod.snd) := by
  have h := foldl_step_spec (splitOnNl c) [] [] none []
  simpa [parse_fasta_content, spec_parse, absState] using h

/-- C1 (amended): for every input file, `parse_fasta_file` returns, in file
order, exactly those records with a nonempty identifier and a nonempty
sequence, where the identifier is the remainder of the whitespace-stripped
header line after the `>` marker (whitespace between `>` and the identifier
text is preserved, only the line's surrounding whitespace is stripped) and
the sequence is the separator-free concatenation of the whitespace-stripped
non-header lines up to the next header or end of file; in particular
parsing `">a\nAC\nGT\n>b\nTT\n"` yields `[("a","ACGT"), ("b","TT")]`. -/
theorem C1_parse_fasta_records :
    (∀ content : Str,
       parse_fasta_content content =
         ((spec_parse content).map Prod.fst, (spec_parse content).map Prod.snd)) ∧
    parse_fasta_content (strOf ">a\nAC\nGT\n>b\nTT\n") =
      ([strOf "a", strOf "b"], [strOf "ACGT", strOf "TT"]) :=
  ⟨parse_eq_spec_parse, by decide⟩

/-- C1 counterexample: on the header line `"> a"` the code strips the whole
line and then drops the marker, so the identifier keeps the whitespace that
follows `>`: the file `"> a\nAC\n"` parses to the identifier `" a"`, not to
the claim's fully stripped `"a"`. -/
theorem C1_counterexample :
    parse_fasta_content (strOf "> a\nAC\n") = ([strOf " a"], [strOf "AC"]) ∧
    claim_parse (strOf "> a\nAC\n") = [(strOf "a", strOf "AC")] ∧
    (parse_fasta_content (strOf "> a\nAC\n")).1 ≠
      (claim_parse (strOf "> a\nAC\n")).map Prod.fst :=
  ⟨by decide, by decide, by decide⟩

/-- C8: every record produced by the parser has a nonempty identifier and a
nonempty sequence; a header immediately followed by another header is
dropped, so `">a\n>b\nAA\n"` yields only `[("b","AA")]`. -/
theorem C8_parser_invariant :
    (∀ content : Str,
       (((parse_fasta_content content).1.all fun i => !i.isEmpty) &&
        ((parse_fasta_content content).2.all fun s => !s.isEmpty)) = true) ∧
    parse_fasta_content (strOf ">a\n>b\nAA\n") = ([strOf "b"], [strOf "AA"]) := by
  refine ⟨fun c => ?_, by decide⟩
  rw [parse_eq_spec_parse]
  refine (Bool.and_eq_true _ _).mpr ⟨?_, ?_⟩
  · rw [List.all_eq_true]
    intro i hi
    rcases List.mem_map.mp hi with ⟨r, hr, rfl⟩
    exact ((Bool.and_eq_true _ _).mp
      (spec_go_records_nonempty (splitOnNl c) none r hr)).1
  · rw [List.all_eq_true]
    intro s hs
    rcases List.mem_map.mp hs with ⟨r, hr, rfl⟩
    exact ((Bool.and_eq_true _ _).mp
      (spec_go_records_nonempty (splitOnNl c) none r hr)).2

/-! ## Claim C2: the Slicer -/

/-- Slicing as the claim's words describe it: each bound is clamped into
the valid range of the text (a negative bound truncates to the start, an
overflowing bound to the end). -/
def claim_slice (s : Str) (a b : Int) : Str :=
  (s.take (min s.length b.toNat)).drop (min s.length a.toNat)

/-- C2 (amended): with both bounds present, `slice_sequence` raises
`ValueError` (the spec's RangeError) when `start > end` and otherwise
returns the Python slice `sequence[start:end]`, in which a negative bound
denotes an offset from the end of the sequence (floored at 0) and a
non-negative bound is capped at the length; with any absent bound the
sequence is returned unchanged. -/
theorem C2_slice_sequence (s : Str) (a b : Int) :
    slice_sequence s (some a) (some b) =
      (if a > b then .error .valueError
       else .ok ((s.drop (pySliceResolve s.length a)).take
         (pySliceResolve s.length b - pySliceResolve s.length a))) ∧
    slice_sequence s none (some b) = .ok s ∧
    slice_sequence s (some a) none = .ok s ∧
    slice_sequence s none none = .ok s := by
  refine ⟨?_, rfl, rfl, rfl⟩
  by_cases h : a > b
  · simp [slice_sequence, h]
  · simp [slice_sequence, h, pySlice, List.drop_take]

/-- C2 counterexample: `slice_sequence("ABCDEF", -3, 6)` returns `"DEF"`
(the negative bound counts from the end, Python-style), not the `"ABCDEF"`
that clamping the negative bound to the start of the text would give. -/
theorem C2_counterexample :
    slice_sequence (strOf "ABCDEF") (some (-3)) (some 6) = .ok (strOf "DEF") ∧
    claim_slice (strOf "ABCDEF") (-3) 6 = strOf "ABCDEF" ∧
    strOf "DEF" ≠ strOf "ABCDEF" :=
  ⟨by decide, by decide, by decide⟩

/-! ## Claims C4 and C10: the Orchestrator's control flow -/

theorem allRecordsBranch_result (all_ids all_seqs : List Str)
    (dest : Option Str) (delim : Str) (cols : Option (List Int)) (ws : Bool)
    (budget : Option Nat) :
    (allRecordsBranch all_ids all_seqs dest delim cols ws budget).result =
      .ok () := by
  unfold allRecordsBranch
  split <;> rfl

theorem singleBranch_result (all_ids all_seqs : List Str) (sid : Str)
    (start stop : Option Int) (dest : Option Str) (delim : Str)
    (cols : Option (List Int)) (ws : Bool) (budget : Option Nat) :
    (singleBranch all_ids all_seqs sid start stop dest delim cols ws
      budget).result = .ok () := by
  unfold singleBranch
  split
  · rfl
  · split
    · rfl
    · dsimp only
      split <;> rfl

/-- C4 (amended): once validation has passed and the input file decodes,
every exception raised by the Slicer or the Writer inside the
selection/slicing/writing phase is caught and reported as a notice and the
call returns normally; an exception raised by the Parser, however, occurs
before the `try` block and propagates to the caller. -/
theorem C4_orchestrator_catches (content : Str) (sequence_id : Option Str)
    (start stop : Option Int) (dest : Option Str) (delim : Str)
    (columns : Option (List Int)) (ws : Bool) (budget : Option Nat) :
    (get_sequence_by_id true (some content) sequence_id start stop dest delim
      columns ws budget).result = .ok () := by
  unfold get_sequence_by_id
  simp only [validate_input, if_true, parse_fasta_file]
  cases sequence_id with
  | none => exact allRecordsBranch_result ..
  | some sid =>
    by_cases h : sid.isEmpty <;>
      simp [h, allRecordsBranch_result, singleBranch_result]

/-- C4 counterexample: with an existing but undecodable input file the
Parser's `UnicodeDecodeError` is raised before the `try` block of
`get_sequence_by_id` and escapes to the caller instead of being reported as
a notice. -/
theorem C4_counterexample :
    (get_sequence_by_id true none none none none none (strOf "\t") none true
      none).result = .error .decodeError ∧
    (Except.error Err.decodeError : Except Err Unit) ≠ .ok () :=
  ⟨rfl, by decide⟩

/-- C10: passing the empty string as `sequence_id` is indistinguishable
from passing no identifier: the call takes the all-records path (Python's
`if sequence_id:` is falsy on the empty string), so every record is written
and no single-identifier lookup happens. -/
theorem C10_empty_id_is_all_path (fe : Bool) (ft : Option Str)
    (start stop : Option Int) (dest : Option Str) (delim : Str)
    (columns : Option (List Int)) (ws : Bool) (budget : Option Nat) :
    get_sequence_by_id fe ft (some []) start stop dest delim columns ws
        budget =
      get_sequence_by_id fe ft none start stop dest delim columns ws budget := by
  cases fe
  · rfl
  · cases ft <;> rfl

/-! ## Claim C7: the Writer with `write_sequence = False` -/

theorem saveSeqLoop_no_ws (delim : Str) (cols : Option (List Int)) :
    ∀ pairs : List (Str × Str),
      saveSeqLoop delim cols false none pairs =
        (.ok (), pairs.map fun p => p.1 ++ ['\n']) := by
  intro pairs
  induction pairs with
  | nil => rfl
  | cons p rest ih =>
    obtain ⟨id, sq⟩ := p
    simp [saveSeqLoop, recordChunks, writeChunks, budgetZero, decBudget, ih]

/-- C7 (amended): with `write_sequence = False` the Writer emits exactly
one line per record and never a sequence line, but the line is the
identifier written verbatim: the `columns` projection is nested under the
`write_sequence` branch in the source and is therefore ignored in this
mode. -/
theorem C7_no_sequence_mode (ids seqs : List Str) (dest delim : Str)
    (cols : Option (List Int)) :
    save_sequences_to_file ids seqs (some dest) delim cols false none =
      (.ok (), some ((ids.zip seqs).map fun p => p.1 ++ ['\n'])) := by
  simp [save_sequences_to_file, saveSeqLoop_no_ws]

/-- C7 counterexample: with `write_sequence = False` and `columns = [0]`
the id `"a b"` is written verbatim as `"a b\n"`, not projected to the
claimed `"a\n"`. -/
theorem C7_counterexample :
    save_sequences_to_file [strOf "a b"] [strOf "AC"] (some (strOf "o"))
        (strOf "\t") (some [0]) false none = (.ok (), some [strOf "a b\n"]) ∧
    some [strOf "a b\n"] ≠ some [strOf "a\n"] :=
  ⟨by decide, by decide⟩

/-! ## Claim C9: behaviour of the two writers on I/O failure -/

theorem saveIdsLoop_budget (delim : Str) :
    ∀ (ids : List Str) (b index : Nat), b < ids.length →
      saveIdsLoop delim none none (some b) index ids =
        (.error .ioError,
         (ids.map fun id => idsLine delim none id ++ ['\n']).take b) := by
  intro ids
  induction ids with
  | nil => intro b index hb; simp at hb
  | cons id rest ih =>
    intro b index hb
    match b with
    | 0 => simp [saveIdsLoop, writeChunks, budgetZero]
    | n + 1 =>
      have hn : n < rest.length := by simpa using hb
      simp [saveIdsLoop, writeChunks, budgetZero, decBudget, ih n (index + 1) hn]

theorem saveSeqLoop_budget (delim : Str) :
    ∀ (pairs : List (Str × Str)) (b : Nat), b < pairs.length →
      saveSeqLoop delim none true (some b) pairs =
        (.error .ioError,
         (pairs.map fun p => p.1 ++ ['\n'] ++ p.2 ++ ['\n']).take b) := by
  intro pairs
  induction pairs with
  | nil => intro b hb; simp at hb
  | cons p rest ih =>
    intro b hb
    obtain ⟨id, sq⟩ := p
    match b with
    | 0 =>
      simp [saveSeqLoop, recordChunks, colsTruthy, writeChunks, budgetZero]
    | n + 1 =>
      have hn : n < rest.length := by simpa using hb
      simp [saveSeqLoop, recordChunks, colsTruthy, writeChunks, budgetZero,
        decBudget, ih n hn]

/-- C9 (amended): on a write failure `save_ids_to_file` catches the
`IOError`, reports it, removes the destination file and returns normally
(so nothing incomplete remains but no error reaches the caller either);
`save_sequences_to_file`, used by the pipeline, has no cleanup: the
`IOError` propagates and the partially written destination keeps the
chunks that were written before the failure. -/
theorem C9_write_failure (ids seqs : List Str) (fname dest delim : Str)
    (b : Nat) (h1 : ids.isEmpty = false) (h2 : fname.isEmpty = false)
    (h3 : b < ids.length) (h4 : b < (ids.zip seqs).length) :
    save_ids_to_file ids fname delim none none (some b) = (.ok (), none) ∧
    save_sequences_to_file ids seqs (some dest) delim none true (some b) =
      (.error .ioError,
       some (((ids.zip seqs).map fun p =>
         p.1 ++ ['\n'] ++ p.2 ++ ['\n']).take b)) := by
  constructor
  · simp [save_ids_to_file, h1, h2, saveIdsLoop_budget delim ids b 0 h3]
  · simp [save_sequences_to_file, saveSeqLoop_budget delim (ids.zip seqs) b h4]

/-- C9 witness: with two records and a device that fails after one write,
`save_ids_to_file` ends with no file while `save_sequences_to_file` leaves
the first record's chunk behind. -/
theorem C9_write_failure_witness :
    save_ids_to_file [strOf "a", strOf "b"] (strOf "o") (strOf "\t") none
        none (some 1) = (.ok (), none) ∧
    save_sequences_to_file [strOf "a", strOf "b"] [strOf "AC", strOf "GT"]
        (some (strOf "o")) (strOf "\t") none true (some 1) =
      (.error .ioError, some [strOf "a\nAC\n"]) :=
  C9_write_failure [strOf "a", strOf "b"] [strOf "AC", strOf "GT"]
    (strOf "o") (strOf "o") (strOf "\t") 1 (by decide) (by decide)
    (by decide) (by decide)

/-- C9 counterexample: a mid-write `IOError` in `save_sequences_to_file`
leaves a nonempty partially written destination file behind, contradicting
the claim that the destination never retains incomplete data. -/
theorem C9_counterexample :
    save_sequences_to_file [strOf "a", strOf "b"] [strOf "AC", strOf "GT"]
        (some (strOf "o")) (strOf "\t") none true (some 1) =
      (.error .ioError, some [strOf "a\nAC\n"]) ∧
    some [strOf "a\nAC\n"] ≠ (none : Option (List Str)) :=
  ⟨by decide, by decide⟩

/-! ## Claim C6: column projection -/

/-- Did a Python expression evaluate without raising? -/
def exOk {α : Type} : Except Err α → Bool
  | .ok _ => true
  | .error _ => false

theorem pyGetElem_not_ok (fields : List Str) (i : Int)
    (h : exOk (pyGetElem fields i) = false) :
    pyGetElem fields i = .error .indexError := by
  by_cases hc : 0 ≤ pyResolve fields.length i ∧
      (pyResolve fields.length i).toNat < fields.length
  · unfold pyGetElem at h
    rw [dif_pos hc] at h
    simp [exOk] at h
  · unfold pyGetElem
    rw [dif_neg hc]

theorem projectFields_error (fields : List Str) :
    ∀ cs : List Int,
      (cs.any fun i => !exOk (pyGetElem fields i)) = true →
      projectFields fields cs = .error .indexError := by
  intro cs
  induction cs with
  | nil => simp
  | cons i rest ih =>
    intro h
    simp only [List.any_cons, Bool.or_eq_true] at h
    unfold projectFields
    cases hg : pyGetElem fields i with
    | error e =>
      have : pyGetElem fields i = .error .indexError :=
        pyGetElem_not_ok fields i (by simp [hg, exOk])
      rw [hg] at this
      rw [this]
    | ok f =>
      have hrest : (rest.any fun i => !exOk (pyGetElem fields i)) = true := by
        rcases h with h | h
        · rw [hg] at h; simp [exOk] at h
        · exact h
      rw [ih hrest]

theorem saveIdsLoop_ok (delim : Str) (cols : Option (List Int)) :
    ∀ (ids : List Str) (index : Nat),
      saveIdsLoop delim cols none none index ids =
        (.ok (), ids.map fun id => idsLine delim cols id ++ ['\n']) := by
  intro ids
  induction ids with
  | nil => intro index; rfl
  | cons id rest ih =>
    intro index
    simp [saveIdsLoop, writeChunks, budgetZero, decBudget, ih (index + 1)]

theorem idsLine_nonneg (delim : Str) (cs : List Int) (id : Str)
    (h : (cs.all fun i => decide (0 ≤ i)) = true) :
    idsLine delim (some cs) id =
      joinWith delim (cs.map fun i => (splitWS id).getD i.toNat []) := by
  unfold idsLine
  dsimp only
  congr 1
  apply List.map_congr_left
  intro i hi
  have hge : 0 ≤ i := by
    have := (List.all_eq_true.mp h) i hi
    simpa using this
  by_cases hlt : i.toNat < (splitWS id).length
  · simp [hge, hlt]
  · have hd : (splitWS id).getD i.toNat [] = [] :=
      List.getD_eq_default _ _ (by omega)
    have hco : ¬(0 ≤ i ∧ i.toNat < (splitWS id).length) := fun hc => hlt hc.2
    rw [if_neg hco, hd]

/-- C6 (amended): the empty-field rule holds only for the standalone
writer `save_ids_to_file`, whose projection substitutes an empty field for
each out-of-range index and never raises; the pipeline writer
`save_sequences_to_file` instead indexes the split identifier directly, so
an out-of-range index raises `IndexError` before anything is written for
that record (the Orchestrator then catches and reports it). -/
theorem C6_column_projection (delim : Str) :
    (∀ (ids : List Str) (fname : Str) (cs : List Int),
       ids.isEmpty = false → fname.isEmpty = false →
       (cs.all fun i => decide (0 ≤ i)) = true →
       save_ids_to_file ids fname delim (some cs) none none =
         (.ok (), some (ids.map fun id =>
           joinWith delim (cs.map fun i => (splitWS id).getD i.toNat []) ++
             ['\n']))) ∧
    (∀ (id sq dest : Str) (cs : List Int),
       (cs.any fun i => !exOk (pyGetElem (splitWS id) i)) = true →
       save_sequences_to_file [id] [sq] (some dest) delim (some cs) true
           none =
         (.error .indexError, some [])) := by
  constructor
  · intro ids fname cs h1 h2 h3
    have hneg : (cs.any fun i => decide (i < 0)) = false := by
      rw [List.any_eq_false]
      intro i hi
      have := (List.all_eq_true.mp h3) i hi
      simp at this ⊢
      omega
    have hlines : (ids.map fun id => idsLine delim (some cs) id ++ ['\n']) =
        ids.map fun id =>
          joinWith delim (cs.map fun i => (splitWS id).getD i.toNat []) ++
            ['\n'] := by
      apply List.map_congr_left
      intro id _
      rw [idsLine_nonneg delim cs id h3]
    simp [save_ids_to_file, h1, h2, hneg, saveIdsLoop_ok, hlines]
  · intro id sq dest cs h
    have hne : cs.isEmpty = false := by
      cases cs with
      | nil => simp at h
      | cons i rest => rfl
    simp [save_sequences_to_file, saveSeqLoop, recordChunks, colsTruthy, hne,
      projectFields_error (splitWS id) cs h]

/-- C6 witness: `save_ids_to_file` with id `"seq1 len=10 type=dna"` and
`columns = [0, 3]` writes `"seq1\t\n"` (index 3 is out of range and becomes
an empty field), while `save_sequences_to_file` with id `"a"` and
`columns = [1]` raises `IndexError`. -/
theorem C6_column_projection_witness :
    save_ids_to_file [strOf "seq1 len=10 type=dna"] (strOf "o") (strOf "\t")
        (some [0, 3]) none none =
      (.ok (), some [strOf "seq1\t\n"]) ∧
    save_sequences_to_file [strOf "a"] [strOf "AC"] (some (strOf "o"))
        (strOf "\t") (some [1]) true none = (.error .indexError, some []) :=
  ⟨(C6_column_projection (strOf "\t")).1 [strOf "seq1 len=10 type=dna"]
      (strOf "o") [0, 3] (by decide) (by decide) (by decide),
   (C6_column_projection (strOf "\t")).2 (strOf "a") (strOf "AC")
      (strOf "o") [1] (by decide)⟩

/-- C6 counterexample: `save_sequences_to_file` — the Writer invoked by
the pipeline — raises `IndexError` on an out-of-range column index instead
of resolving it to an empty field: with id `"a"` and `columns = [1]` the
call fails and writes nothing. -/
theorem C6_counterexample :
    save_sequences_to_file [strOf "a"] [strOf "AC"] (some (strOf "o"))
        (strOf "\t") (some [1]) true none = (.error .indexError, some []) ∧
    (Except.error Err.indexError : Except Err Unit) ≠ .ok () :=
  ⟨by decide, by decide⟩

/-! ## Claim C5: the single-identifier path -/

theorem findTarget_find (sid : Str) (start stop : Option Int) :
    ∀ pairs : List (Str × Str),
      findTarget pairs sid start stop =
        match pairs.find? (fun p => p.1 == sid) with
        | none => .ok []
        | some p => slice_sequence p.2 start stop := by
  intro pairs
  induction pairs with
  | nil => rfl
  | cons p rest ih =>
    obtain ⟨id, sq⟩ := p
    by_cases h : (id == sid) = true
    · simp [findTarget, List.find?_cons, h]
    · simp only [Bool.not_eq_true] at h
      simp [findTarget, List.find?_cons, h, ih]

theorem save_single (sid t dest delim : Str) (ws : Bool) :
    save_sequences_to_file [sid] [t] (some dest) delim none ws none =
      (.ok (),
       some [if ws then sid ++ ['\n'] ++ t ++ ['\n'] else sid ++ ['\n']]) := by
  cases ws <;>
    simp [save_sequences_to_file, saveSeqLoop, recordChunks, colsTruthy,
      writeChunks, budgetZero, decBudget]

/-- C5 (amended): with a nonempty `sequence_id` the records are scanned in
file order for the first record whose identifier equals it exactly; the
match is reported and written only when its sliced sequence is nonempty
(the code tests the sliced text for truthiness, not whether a match was
found), and the "not found" notice — with no file written and no error
raised — is emitted both when no record's identifier matches and when the
first matching record's sliced sequence is empty; an exception from the
Slicer is instead caught and reported. -/
theorem C5_single_lookup (content sid : Str) (start stop : Option Int)
    (dest delim : Str) (ws : Bool) (h : sid.isEmpty = false) :
    (match ((parse_fasta_content content).1.zip
        (parse_fasta_content content).2).find? (fun p => p.1 == sid) with
     | none =>
       get_sequence_by_id true (some content) (some sid) start stop
         (some dest) delim none ws none =
         ⟨.ok (), [.notFound sid], none⟩
     | some p =>
       match slice_sequence p.2 start stop with
       | .error e =>
         get_sequence_by_id true (some content) (some sid) start stop
           (some dest) delim none ws none =
           ⟨.ok (), [.errorNotice e], none⟩
       | .ok t =>
         if t.isEmpty then
           get_sequence_by_id true (some content) (some sid) start stop
             (some dest) delim none ws none =
             ⟨.ok (), [.notFound sid], none⟩
         else
           get_sequence_by_id true (some content) (some sid) start stop
             (some dest) delim none ws none =
             ⟨.ok (),
              Notice.foundId sid ::
                (if ws then [Notice.seqLength t.length] else []),
              some [if ws then sid ++ ['\n'] ++ t ++ ['\n']
                    else sid ++ ['\n']]⟩) := by
  have hrun : get_sequence_by_id true (some content) (some sid) start stop
      (some dest) delim none ws none =
      singleBranch (parse_fasta_content content).1
        (parse_fasta_content content).2 sid start stop (some dest) delim none
        ws none := by
    unfold get_sequence_by_id
    simp [validate_input, parse_fasta_file, h]
  simp only [hrun]
  unfold singleBranch
  rw [findTarget_find]
  cases hf : ((parse_fasta_content content).1.zip
      (parse_fasta_content content).2).find? (fun p => p.1 == sid) with
  | none => simp
  | some p =>
    cases hs : slice_sequence p.2 start stop with
    | error e => simp [hs]
    | ok t =>
      by_cases ht : t.isEmpty
      · simp [hs, ht]
      · simp only [Bool.not_eq_true] at ht
        simp [hs, ht, save_single]

/-- C5 witness: looking up `"a"` in `">a\nACGT\n"` reports the identifier
and the length 4 and writes the single pair. -/
theorem C5_single_lookup_witness :
    get_sequence_by_id true (some (strOf ">a\nACGT\n")) (some (strOf "a"))
        none none (some (strOf "o")) (strOf "\t") none true none =
      ⟨.ok (), [.foundId (strOf "a"), .seqLength 4],
       some [strOf "a\nACGT\n"]⟩ :=
  C5_single_lookup (strOf ">a\nACGT\n") (strOf "a") none none (strOf "o")
    (strOf "\t") true (by decide)

/-- C5 counterexample: in `">a\nAC\n"` a record with identifier `"a"`
exists, yet requesting it with `start = end = 1` (an empty slice) prints
the "not found" notice and writes nothing, because the code tests the
sliced sequence for truthiness rather than whether a match occurred. -/
theorem C5_counterexample :
    (parse_fasta_content (strOf ">a\nAC\n")).1 = [strOf "a"] ∧
    get_sequence_by_id true (some (strOf ">a\nAC\n")) (some (strOf "a"))
        (some 1) (some 1) (some (strOf "o")) (strOf "\t") none true none =
      ⟨.ok (), [.notFound (strOf "a")], none⟩ :=
  ⟨by decide, by decide⟩

/-! ## Claim C3: round-trip through the Writer and the Parser -/

/-- A text (id or sequence) as the Parser produces it: it contains no
newline and its stripped form does not begin with the `>` marker. -/
def goodLine (s : Str) : Bool :=
  (s.all fun c => !decide (c = '\n')) && !startsGt (strip s)

theorem splitOnNl_append (a rest : Str)
    (ha : (a.all fun c => !decide (c = '\n')) = true) :
    splitOnNl (a ++ '\n' :: rest) = a :: splitOnNl rest := by
  induction a with
  | nil => simp [splitOnNl]
  | cons c a ih =>
    simp only [List.all_cons, Bool.and_eq_true] at ha
    have hc : ¬(c = '\n') := by simpa using ha.1
    simp only [List.cons_append, splitOnNl, if_neg hc, List.append_eq]
    rw [ih ha.2]

theorem foldl_no_header (lines : List Str) :
    ∀ (I S : List Str) (cs : Str),
      (∀ l ∈ lines, startsGt (strip l) = false) →
      finishParse (lines.foldl stepLine ⟨I, S, none, cs⟩) = (I, S) := by
  induction lines with
  | nil => intro I S cs _; simp [finishParse, idTruthy]
  | cons l rest ih =>
    intro I S cs hall
    have hl : startsGt (strip l) = false := hall l (by simp)
    have hstep : stepLine ⟨I, S, none, cs⟩ l = ⟨I, S, none, cs ++ strip l⟩ := by
      simp [stepLine, hl]
    rw [List.foldl_cons, hstep]
    exact ih I S _ fun x hx => hall x (by simp [hx])

theorem saveSeqLoop_ok (delim : Str) :
    ∀ pairs : List (Str × Str),
      saveSeqLoop delim none true none pairs =
        (.ok (), pairs.map fun p => p.1 ++ ['\n'] ++ p.2 ++ ['\n']) := by
  intro pairs
  induction pairs with
  | nil => rfl
  | cons p rest ih =>
    obtain ⟨id, sq⟩ := p
    simp [saveSeqLoop, recordChunks, colsTruthy, writeChunks, budgetZero,
      decBudget, ih]

theorem writer_text_lines :
    ∀ pairs : List (Str × Str),
      (∀ p ∈ pairs, ((p.1.all fun c => !decide (c = '\n')) = true) ∧
        ((p.2.all fun c => !decide (c = '\n')) = true)) →
      splitOnNl ((pairs.map fun p => p.1 ++ ['\n'] ++ p.2 ++ ['\n']).flatten) =
        (pairs.flatMap fun p => [p.1, p.2]) ++ [[]] := by
  intro pairs
  induction pairs with
  | nil => intro _; rfl
  | cons p rest ih =>
    intro h
    obtain ⟨id, sq⟩ := p
    have h1 : (id.all fun c => !decide (c = '\n')) = true :=
      (h (id, sq) (by simp)).1
    have h2 : (sq.all fun c => !decide (c = '\n')) = true :=
      (h (id, sq) (by simp)).2
    have hrest := ih fun q hq => h q (by simp [hq])
    simp only [List.map_cons, List.flatten_cons, List.flatMap_cons,
      List.append_assoc, List.singleton_append, List.cons_append,
      List.nil_append]
    simp only [List.append_assoc, List.singleton_append, List.cons_append,
      List.nil_append] at hrest
    rw [splitOnNl_append _ _ h1, splitOnNl_append _ _ h2, hrest]

/-- C3 (amended): the Writer (columns absent, `writeSequence` true) writes
each record as `id` and sequence lines with no `>` marker, so re-parsing
its output does not restore the records: for every id and sequence list
made of Parser-shaped texts (no newlines, stripped form not beginning with
`>`), parsing the file written by the Writer yields no records at all. -/
theorem C3_roundtrip (ids seqs : List Str) (dest delim : Str)
    (h1 : ids.all goodLine = true) (h2 : seqs.all goodLine = true) :
    parse_fasta_content
        (((save_sequences_to_file ids seqs (some dest) delim none true
            none).2.getD []).flatten) = ([], []) := by
  have hw : save_sequences_to_file ids seqs (some dest) delim none true none =
      (.ok (),
       some ((ids.zip seqs).map fun p => p.1 ++ ['\n'] ++ p.2 ++ ['\n'])) := by
    simp [save_sequences_to_file, saveSeqLoop_ok]
  rw [hw]
  have hmem : ∀ p ∈ ids.zip seqs, goodLine p.1 = true ∧ goodLine p.2 = true := by
    intro p hp
    have hp1 := (List.of_mem_zip hp).1
    have hp2 := (List.of_mem_zip hp).2
    exact ⟨(List.all_eq_true.mp h1) _ hp1, (List.all_eq_true.mp h2) _ hp2⟩
  have hlines := writer_text_lines (ids.zip seqs) fun p hp =>
    ⟨((Bool.and_eq_true _ _).mp (hmem p hp).1).1,
     ((Bool.and_eq_true _ _).mp (hmem p hp).2).1⟩
  unfold parse_fasta_content
  simp only [Option.getD_some]
  rw [hlines]
  apply foldl_no_header
  intro l hl
  rcases List.mem_append.mp hl with hl | hl
  · rcases List.mem_flatMap.mp hl with ⟨p, hp, hpl⟩
    have hg1 := ((Bool.and_eq_true _ _).mp (hmem p hp).1).2
    have hg2 := ((Bool.and_eq_true _ _).mp (hmem p hp).2).2
    simp only [List.mem_cons, List.mem_singleton] at hpl
    rcases hpl with rfl | hpl
    · simpa using hg1
    · rcases hpl with rfl | hfalse
      · simpa using hg2
      · simp at hfalse
  · simp only [List.mem_singleton] at hl
    subst hl
    rfl

/-- C3 witness: writing the single record `("a", "AC")` and re-parsing the
written file yields no records. -/
theorem C3_roundtrip_witness :
    parse_fasta_content
        (((save_sequences_to_file [strOf "a"] [strOf "AC"]
            (some (strOf "o")) (strOf "\t") none true
            none).2.getD []).flatten) = ([], []) :=
  C3_roundtrip [strOf "a"] [strOf "AC"] (strOf "o") (strOf "\t")
    (by decide) (by decide)

/-- C3 counterexample: the Writer stores `("a", "AC")` as the text
`"a\nAC\n"` — with no `>` marker — and parsing that text yields no records,
not the original `(["a"], ["AC"])`. -/
theorem C3_counterexample :
    save_sequences_to_file [strOf "a"] [strOf "AC"] (some (strOf "o"))
        (strOf "\t") none true none = (.ok (), some [strOf "a\nAC\n"]) ∧
    parse_fasta_content (strOf "a\nAC\n") = ([], []) ∧
    (([], []) : List Str × List Str) ≠ ([strOf "a"], [strOf "AC"]) :=
  ⟨by decide, by decide, by decide⟩
